import Mathlib

/-!
Shallow embedding of the `bitmask` repository.

The repository has two small bitmask implementations:

* `game.go`: type `KeySet byte` with flag constants `Copper = 1`, `Jade = 2`,
  `Crystal = 4` and sentinel `maxKey = 8` (declared via `1 << iota`), a
  `String` rendering method, and `Player` methods `AddKey` (`|=`),
  `HasKey` (`& != 0`) and `RemoveKey` (`&= ^key`).
* `bits/permissions.go`: type `DocumentPermissions uint8` with methods
  `Set` (`|`), `Clear` (`& ^perm`) and `IsSet` (`& != 0`).

Bytes are modelled as `Nat` with explicit 8-bit semantics where the width
matters: Go `^x` on a byte is `x ^^^ 255`, and theorems about byte
values carry hypotheses `< 256` where the result depends on the width.
The bounded recursion of `KeySet.String` (its multi-key loop calls
`String` again on single flags) is embedded with explicit fuel; fuel
independence is proved below, so the fuel is an embedding device, not a
semantic restriction.
-/

namespace Bitmask

/-- `KeySet` is a set of keys in the game; the Go type is `byte`. -/
abbrev KeySet := Nat

/-- `Copper KeySet = 1 << iota` — value 1. -/
def Copper : KeySet := 1

/-- `Jade` — value 2. -/
def Jade : KeySet := 2

/-- `Crystal` — value 4. -/
def Crystal : KeySet := 4

/-- `maxKey` — the sentinel one past the last flag, value 8. -/
def maxKey : KeySet := 8

/-- The loop header of `KeySet.String`:
`for key := Copper; key < maxKey; key <<= 1` generates the sequence of
candidate keys. The shift is on a byte, so one step is `(key * 2) % 256`.
Fuel bounds the iteration count; 8 iterations cover a full byte traversal
from `Copper`. -/
def loopKeysAux : Nat → KeySet → List KeySet
  | 0, _ => []
  | fuel + 1, key =>
    if key < maxKey then key :: loopKeysAux fuel ((key * 2) % 256) else []

/-- The list of keys visited by the loop in `KeySet.String`. -/
def loopKeys (key : KeySet) : List KeySet := loopKeysAux 8 key

/-- `KeySet.String`, fuel-indexed: the multi-key branch recursively calls
`String` on each single flag present in `k`. -/
def KeySet.stringFuel : Nat → KeySet → String
  | 0, _ => ""
  | fuel + 1, k =>
    if maxKey ≤ k then "<unknown key: " ++ toString k ++ ">"
    else if k = Copper then "copper"
    else if k = Jade then "jade"
    else if k = Crystal then "crystal"
    else
      String.intercalate "|"
        (((loopKeys Copper).filter fun key => k &&& key != 0).map
          (KeySet.stringFuel fuel))

/-- `KeySet.String`. Fuel 2 suffices: the recursive calls in the
multi-key branch are on single flags, which return from the `switch`
without recursing further (fuel independence is proved below). -/
def KeySet.string (k : KeySet) : String := KeySet.stringFuel 2 k

/-- `Player` is a player in the game. -/
structure Player where
  Name : String
  Keys : KeySet
  deriving DecidableEq, Repr

/-- `AddKey` adds a key to the player keys: `p.Keys |= key`. -/
def Player.AddKey (p : Player) (key : KeySet) : Player :=
  { p with Keys := p.Keys ||| key }

/-- `HasKey` returns true if player has a key: `p.Keys & key != 0`. -/
def Player.HasKey (p : Player) (key : KeySet) : Bool :=
  p.Keys &&& key != 0

/-- `RemoveKey` removes key from player: `p.Keys &= ^key`; on a byte,
`^key` is `key ^^^ 255`. -/
def Player.RemoveKey (p : Player) (key : KeySet) : Player :=
  { p with Keys := p.Keys &&& (key ^^^ 255) }

/-- `DocumentPermissions` from `bits/permissions.go`; the Go type is
`uint8`. -/
abbrev DocumentPermissions := Nat

/-- `Locked DocumentPermissions = 1 << iota` — value 1. -/
def Locked : DocumentPermissions := 1

/-- `GroupReadable` — value 2. -/
def GroupReadable : DocumentPermissions := 2

/-- `GroupWritable` — value 4. -/
def GroupWritable : DocumentPermissions := 4

/-- `AllReadable` — value 8. -/
def AllReadable : DocumentPermissions := 8

/-- `AllWritable` — value 16. -/
def AllWritable : DocumentPermissions := 16

/-- `Set`: `*p = *p | perm`. -/
def DocumentPermissions.Set (p perm : DocumentPermissions) : DocumentPermissions :=
  p ||| perm

/-- `Clear`: `*p = *p & (^perm)`; on a uint8, `^perm` is `perm ^^^ 255`. -/
def DocumentPermissions.Clear (p perm : DocumentPermissions) : DocumentPermissions :=
  p &&& (perm ^^^ 255)

/-- `IsSet`: `p & perm != 0`. -/
def DocumentPermissions.IsSet (p perm : DocumentPermissions) : Bool :=
  p &&& perm != 0

/-- Absorption for the AND-test after OR: the bits of `b` survive. -/
theorem or_and_absorb (a b : Nat) : (a ||| b) &&& b = b := by
  apply Nat.eq_of_testBit_eq
  intro i
  simp only [Nat.testBit_and, Nat.testBit_or]
  cases a.testBit i <;> cases b.testBit i <;> rfl

/-- Clearing the bits of a byte `f` then testing them yields zero. -/
theorem and_not_and_eq_zero (s f : Nat) (hf : f < 256) :
    (s &&& (f ^^^ 255)) &&& f = 0 := by
  apply Nat.eq_of_testBit_eq
  intro i
  simp only [Nat.testBit_and, Nat.testBit_xor, Nat.zero_testBit]
  by_cases hi : i < 8
  · have h255 : Nat.testBit 255 i = true := by
      interval_cases i <;> rfl
    rw [h255]
    cases s.testBit i <;> cases f.testBit i <;> rfl
  · have hfi : f.testBit i = false := by
      apply Nat.testBit_lt_two_pow
      calc f < 256 := hf
        _ = 2 ^ 8 := rfl
        _ ≤ 2 ^ i := Nat.pow_le_pow_right (by omega) (by omega)
    rw [hfi]
    cases s.testBit i <;> cases Nat.testBit 255 i <;> rfl

/-- ANDing a byte with the 8-bit mask 255 is the identity. -/
theorem and_255_of_lt (s : Nat) (hs : s < 256) : s &&& 255 = s := by
  apply Nat.eq_of_testBit_eq
  intro i
  simp only [Nat.testBit_and]
  by_cases hi : i < 8
  · have h255 : Nat.testBit 255 i = true := by
      interval_cases i <;> rfl
    rw [h255, Bool.and_true]
  · have hsi : s.testBit i = false := by
      apply Nat.testBit_lt_two_pow
      calc s < 256 := hs
        _ = 2 ^ 8 := rfl
        _ ≤ 2 ^ i := Nat.pow_le_pow_right (by omega) (by omega)
    rw [hsi, Bool.false_and]

/-- A nonzero natural number has a set bit. -/
theorem ne_zero_iff_exists_testBit (x : Nat) :
    x ≠ 0 ↔ ∃ i, x.testBit i = true := by
  constructor
  · intro h
    obtain ⟨i, hi, -⟩ := Nat.exists_most_significant_bit h
    exact ⟨i, hi⟩
  · rintro ⟨i, hi⟩ rfl
    simp at hi

/-- C1: every value `v ≥ maxKey = 8` renders as the unknown-value form
containing the numeric value, regardless of which low bits are set. -/
theorem keySet_string_unknown (v : KeySet) (h : maxKey ≤ v) :
    KeySet.string v = "<unknown key: " ++ toString v ++ ">" := by
  simp [KeySet.string, KeySet.stringFuel, h]

/-- C1 witness: value 9 (out of range, with the valid Copper bit also set)
renders as the unknown form. -/
theorem keySet_string_unknown_witness :
    maxKey ≤ 9 ∧ KeySet.string 9 = "<unknown key: " ++ toString 9 ++ ">" :=
  ⟨by decide, keySet_string_unknown 9 (by decide)⟩

/-- C2: on the eight in-range values, `String` returns the canonical name
for an exact single flag and the declaration-order `"|"`-join of present
flag names otherwise; the empty set renders as the empty string. -/
theorem keySet_string_in_range :
    KeySet.string 0 = "" ∧
    KeySet.string Copper = "copper" ∧
    KeySet.string Jade = "jade" ∧
    KeySet.string (Copper ||| Jade) = "copper|jade" ∧
    KeySet.string Crystal = "crystal" ∧
    KeySet.string (Copper ||| Crystal) = "copper|crystal" ∧
    KeySet.string (Jade ||| Crystal) = "jade|crystal" ∧
    KeySet.string (Copper ||| Jade ||| Crystal) = "copper|jade|crystal" := by
  refine ⟨rfl, rfl, rfl, rfl, rfl, rfl, rfl, rfl⟩

/-- C3: adding a declared flag then testing it yields true. -/
theorem hasKey_after_addKey (p : Player) (f : KeySet)
    (hf : f = Copper ∨ f = Jade ∨ f = Crystal) :
    (p.AddKey f).HasKey f = true := by
  simp only [Player.AddKey, Player.HasKey, or_and_absorb]
  rcases hf with rfl | rfl | rfl <;> rfl

/-- C3 witness. -/
theorem hasKey_after_addKey_witness :
    (Copper = Copper ∨ Copper = Jade ∨ Copper = Crystal) ∧
    ((Player.mk "Parzival" 0).AddKey Copper).HasKey Copper = true :=
  ⟨Or.inl rfl, hasKey_after_addKey (Player.mk "Parzival" 0) Copper (Or.inl rfl)⟩

/-- C4: removing a byte-valued flag then testing it yields false, and in
particular the add-remove round trip tests false, regardless of whether
the flag was present beforehand. -/
theorem hasKey_after_removeKey (p : Player) (f : KeySet) (hf : f < 256) :
    (p.RemoveKey f).HasKey f = false ∧
    ((p.AddKey f).RemoveKey f).HasKey f = false := by
  constructor <;>
    simp only [Player.AddKey, Player.RemoveKey, Player.HasKey,
      and_not_and_eq_zero _ f hf] <;> rfl

/-- C4 witness. -/
theorem hasKey_after_removeKey_witness :
    Jade < 256 ∧
    ((Player.mk "Parzival" 3).RemoveKey Jade).HasKey Jade = false ∧
    (((Player.mk "Parzival" 3).AddKey Jade).RemoveKey Jade).HasKey Jade = false :=
  ⟨by decide, hasKey_after_removeKey (Player.mk "Parzival" 3) Jade (by decide)⟩

/-- C5: `HasKey` tests for ANY shared bit: it returns true exactly when
some bit position is set both in the player keys and in the argument,
also when the argument is a composite with several bits set. -/
theorem hasKey_iff_shared_bit (p : Player) (flag : KeySet) :
    p.HasKey flag = true ↔
      ∃ i, p.Keys.testBit i = true ∧ flag.testBit i = true := by
  simp only [Player.HasKey, bne_iff_ne, ne_eq]
  rw [show (¬p.Keys &&& flag = 0) ↔ p.Keys &&& flag ≠ 0 from Iff.rfl,
    ne_zero_iff_exists_testBit]
  constructor
  · rintro ⟨i, hi⟩
    rw [Nat.testBit_and, Bool.and_eq_true] at hi
    exact ⟨i, hi⟩
  · rintro ⟨i, h1, h2⟩
    exact ⟨i, by rw [Nat.testBit_and, h1, h2]; rfl⟩

/-- C6: `AddKey` and `RemoveKey` are idempotent on the player keys. -/
theorem addKey_removeKey_idempotent (p : Player) (f : KeySet) :
    (p.AddKey f).AddKey f = p.AddKey f ∧
    (p.RemoveKey f).RemoveKey f = p.RemoveKey f := by
  constructor
  · simp only [Player.AddKey, Nat.or_assoc, Nat.or_self]
  · simp only [Player.RemoveKey, Nat.and_assoc, Nat.and_self]

/-- C7: starting from an in-range key set, adding or removing a declared
flag keeps the value in the valid range below `maxKey`. -/
theorem addKey_removeKey_in_range (p : Player) (f : KeySet)
    (hs : p.Keys < maxKey) (hf : f = Copper ∨ f = Jade ∨ f = Crystal) :
    (p.AddKey f).Keys < maxKey ∧ (p.RemoveKey f).Keys < maxKey := by
  constructor
  · show p.Keys ||| f < maxKey
    have h8 : maxKey = 2 ^ 3 := rfl
    rw [h8]
    apply Nat.or_lt_two_pow
    · rw [← h8]; exact hs
    · rcases hf with rfl | rfl | rfl <;> decide
  · show p.Keys &&& (f ^^^ 255) < maxKey
    exact Nat.lt_of_le_of_lt Nat.and_le_left hs

/-- C7 witness. -/
theorem addKey_removeKey_in_range_witness :
    (Player.mk "Parzival" 5).Keys < maxKey ∧
    (Crystal = Copper ∨ Crystal = Jade ∨ Crystal = Crystal) ∧
    ((Player.mk "Parzival" 5).AddKey Crystal).Keys < maxKey ∧
    ((Player.mk "Parzival" 5).RemoveKey Crystal).Keys < maxKey :=
  ⟨by decide, Or.inr (Or.inr rfl),
    addKey_removeKey_in_range (Player.mk "Parzival" 5) Crystal (by decide)
      (Or.inr (Or.inr rfl))⟩

/-- One-step unfolding of the rendering loop. -/
theorem loopKeysAux_succ (m : Nat) (key : KeySet) :
    loopKeysAux (m + 1) key =
      if key < maxKey then key :: loopKeysAux m ((key * 2) % 256) else [] := rfl

/-- The loop of `KeySet.String` visits exactly the declared flags. -/
theorem loopKeys_eval : loopKeys Copper = [Copper, Jade, Crystal] := rfl

/-- One-step unfolding of the fuel-indexed `String`. -/
theorem stringFuel_succ (m : Nat) (k : KeySet) :
    KeySet.stringFuel (m + 1) k =
      if maxKey ≤ k then "<unknown key: " ++ toString k ++ ">"
      else if k = Copper then "copper"
      else if k = Jade then "jade"
      else if k = Crystal then "crystal"
      else
        String.intercalate "|"
          (((loopKeys Copper).filter fun key => k &&& key != 0).map
            (KeySet.stringFuel m)) := rfl

/-- Any fuel of at least 8 iterations gives the full traversal:
the loop of `String` terminates. -/
theorem loopKeysAux_fuel_indep (n : Nat) :
    loopKeysAux (n + 8) Copper = loopKeys Copper := by
  rw [loopKeys_eval]
  show loopKeysAux (n + 7 + 1) 1 = [1, 2, 4]
  rw [loopKeysAux_succ]
  norm_num [maxKey]
  show loopKeysAux (n + 6 + 1) 2 = [2, 4]
  rw [loopKeysAux_succ]
  norm_num [maxKey]
  show loopKeysAux (n + 5 + 1) 4 = [4]
  rw [loopKeysAux_succ]
  norm_num [maxKey]
  show loopKeysAux (n + 4 + 1) 8 = []
  rw [loopKeysAux_succ]
  norm_num [maxKey]

/-- The recursion of `String` stabilizes at fuel 2: the recursive calls of
the multi-key branch hit single-flag cases and return without recursing. -/
theorem stringFuel_fuel_indep (n : Nat) (k : KeySet) :
    KeySet.stringFuel (n + 2) k = KeySet.string k := by
  by_cases h8 : maxKey ≤ k
  · show KeySet.stringFuel (n + 1 + 1) k = KeySet.stringFuel (1 + 1) k
    rw [stringFuel_succ, stringFuel_succ, if_pos h8, if_pos h8]
  · have hk : k < 8 := by simpa [maxKey, Nat.not_le] using h8
    interval_cases k <;> rfl

/-- C8: every operation is total. `String` stabilizes at its finite fuel
(the recursion terminates) for every input, the rendering loop
stabilizes at its finite fuel (the loop terminates), and `AddKey`,
`HasKey`, `RemoveKey` compute plain bitwise results on every input —
also out-of-range ones — without any failure outcome in their types. -/
theorem operations_total (n : Nat) (p : Player) (v : KeySet) :
    KeySet.stringFuel (n + 2) v = KeySet.string v ∧
    loopKeysAux (n + 8) Copper = loopKeys Copper ∧
    (p.AddKey v).Keys = p.Keys ||| v ∧
    p.HasKey v = (p.Keys &&& v != 0) ∧
    (p.RemoveKey v).Keys = p.Keys &&& (v ^^^ 255) :=
  ⟨stringFuel_fuel_indep n v, loopKeysAux_fuel_indep n, rfl, rfl, rfl⟩

/-- C9: the two implementations compute the same functions:
`DocumentPermissions.Set`, `Clear` and `IsSet` agree with the `KeySet`
operations `AddKey`, `RemoveKey` and `HasKey` on every pair of values. -/
theorem permissions_keySet_equiv (s f : Nat) :
    DocumentPermissions.Set s f = ((Player.mk "" s).AddKey f).Keys ∧
    DocumentPermissions.Clear s f = ((Player.mk "" s).RemoveKey f).Keys ∧
    DocumentPermissions.IsSet s f = (Player.mk "" s).HasKey f :=
  ⟨rfl, rfl, rfl⟩

/-- C10: the zero flag argument: membership testing with 0 is always
false, and adding or removing the zero flag leaves a byte-valued player
unchanged. -/
theorem zero_flag_ops (p : Player) (h : p.Keys < 256) :
    p.HasKey 0 = false ∧ p.AddKey 0 = p ∧ p.RemoveKey 0 = p := by
  refine ⟨?_, ?_, ?_⟩
  · simp [Player.HasKey]
  · simp [Player.AddKey]
  · simp [Player.RemoveKey, Nat.zero_xor, and_255_of_lt p.Keys h]

/-- C10 witness. -/
theorem zero_flag_ops_witness :
    (Player.mk "Parzival" 3).Keys < 256 ∧
    ((Player.mk "Parzival" 3).HasKey 0 = false ∧
      (Player.mk "Parzival" 3).AddKey 0 = Player.mk "Parzival" 3 ∧
      (Player.mk "Parzival" 3).RemoveKey 0 = Player.mk "Parzival" 3) :=
  ⟨by decide, zero_flag_ops (Player.mk "Parzival" 3) (by decide)⟩

end Bitmask
